import Mathlib

/-!
Shallow embedding of the document crawler (src/crawler/crawler.py) and proofs
about the claims of the specification.

The filesystem is modelled as a tree of files and directories.  Each file
carries the data the crawler reads from it: its raw bytes, the outcomes of the
external decoders on it, the structured view the optional document libraries
produce for it, and flags for the spots where a per-file I/O operation can
raise OSError (reading for hashing, opening for text decoding, os.stat).
The recursive crawl is written with an explicit fuel argument so that it is
structurally recursive and reduces inside the kernel; fuel exhaustion is a
distinct error value that never occurs at the concrete inputs used below.

External collaborators are abstracted where the source delegates to a library:
md5 is a parameter of the configuration (the crawler only ever compares digests
for equality), the utf-8 and cp1251 codecs are recorded per file as the result
Python's codecs would return (the latin-1 fallback, which cannot fail, is
implemented), and tempfile.TemporaryDirectory is replaced by a deterministic
fresh-name function, which is sound because each unpack call owns its
directory exclusively.
-/

namespace Crawler

/-- Errors of the modelled runtime: an uncaught OSError propagating out of the
crawl, and exhaustion of the recursion fuel of the model. -/
inductive Err where
  | osError
  | fuelOut
deriving DecidableEq, Repr

/-- Whitespace characters stripped by Python's str.strip(). -/
def pySpaceChars : List Char := [' ', '\t', '\n', '\r', '\x0b', '\x0c']

def pyIsSpace (c : Char) : Bool := pySpaceChars.contains c

/-- Python str.strip(): drop leading and trailing whitespace. -/
def pyStrip (s : String) : String :=
  String.mk (((s.data.dropWhile pyIsSpace).reverse.dropWhile pyIsSpace).reverse)

/-- Python str.lstrip with a dot argument: drop all leading dots
(crawler.py line 211, ext.lstrip). -/
def lstripDots (s : String) : String :=
  String.mk (s.data.dropWhile (fun c => c = '.'))

/-- Index of the last dot in a character list (Python str.rfind of a dot). -/
def lastDotIdx : List Char → Option Nat
  | [] => none
  | c :: rest =>
    match lastDotIdx rest with
    | some i => some (i + 1)
    | none => if c = '.' then some 0 else none

/-- Final path component: the part after the last slash. -/
def lastComponent (p : String) : String :=
  String.mk ((p.data.reverse.takeWhile (fun c => c ≠ '/')).reverse)

/-- pathlib.PurePath.suffix: in the final component, the substring from the
last dot on, provided that dot is neither the first nor the last character;
otherwise the empty string. -/
def pySuffix (p : String) : String :=
  let name := (lastComponent p).data
  match lastDotIdx name with
  | some i => if 0 < i ∧ i < name.length - 1 then String.mk (name.drop i) else ""
  | none => ""

/-- Path(p).suffix.lower(), as used throughout crawler.py (ASCII lowering,
which covers every extension the crawler compares against). -/
def suffixLower (p : String) : String :=
  String.mk ((pySuffix p).data.map Char.toLower)

/-- The structured view the optional document libraries obtain from a file:
either the library raises on it (rawOnly), or it yields paragraphs (python-docx),
worksheets of rows of cells (openpyxl, a cell being None or its str value),
or pages of optional text (pdfplumber). -/
inductive DocView where
  | rawOnly
  | docx (paras : List String)
  | sheets (wb : List (List (List (Option String))))
  | pdfPages (pages : List (Option String))
deriving DecidableEq, Repr

/-- One file of the modelled filesystem.  bytes drive hashing and the latin-1
fallback decode; utf8Dec and cp1251Dec record what Python's utf-8 and cp1251
codecs return for these bytes (none meaning UnicodeDecodeError); hashErr,
statErr and readErr mark the three spots where this file raises OSError
(open for hashing, os.stat, open inside parse_txt). -/
structure FileData where
  name : String
  bytes : List Nat := []
  utf8Dec : Option String := none
  cp1251Dec : Option String := none
  view : DocView := .rawOnly
  size : Nat := 0
  mtime : String := ""
  hashErr : Bool := false
  statErr : Bool := false
  readErr : Bool := false
deriving DecidableEq, Repr

/-- Directory tree: a chain of entries.  A file carries, for the case it is an
archive, whether extraction succeeds (unpackOk) and the tree its contents
extract to. -/
inductive FsTree where
  | nil : FsTree
  | file (fd : FileData) (unpackOk : Bool) (contents : FsTree) (rest : FsTree) : FsTree
  | subdir (dname : String) (sub : FsTree) (rest : FsTree) : FsTree
deriving DecidableEq, Repr

/-- Process-wide configuration fixed at startup: the four optional-decoder
availability flags (crawler.py lines 13-39) and the digest function used by
file_hash (md5 is kept abstract; the crawler only compares digests for
equality). -/
structure Config where
  HAS_DOCX : Bool := true
  HAS_XLSX : Bool := true
  HAS_PDF : Bool := true
  HAS_7Z : Bool := true
  md5 : List Nat → String

/-- A Document Record, with the eight fields of crawler.py lines 208-217. -/
structure Record where
  file_path : String
  file_name : String
  extension : String
  size_bytes : Nat
  modified_at : String
  source_archive : String
  content : String
  file_hash : String
deriving DecidableEq, Repr

/-- The encoding list tried by parse_txt, in source order (crawler.py line 52). -/
def ENCODINGS : List String := ["utf-8", "cp1251", "latin-1"]

/-- The latin-1 decode: every byte maps to the character of its code point,
so it succeeds on every byte sequence. -/
def latin1Decode (bs : List Nat) : String :=
  String.mk (bs.map (fun b => Char.ofNat (b % 256)))

/-- Outcome of decoding the file with one named encoding: the recorded codec
outcome for utf-8 and cp1251, the total latin-1 decode for latin-1. -/
def decodeWith (fd : FileData) (enc : String) : Option String :=
  if enc = "utf-8" then fd.utf8Dec
  else if enc = "cp1251" then fd.cp1251Dec
  else if enc = "latin-1" then some (latin1Decode fd.bytes)
  else none

/-- parse_txt (crawler.py lines 50-58): open the file and return the first
decode that does not raise UnicodeDecodeError; an OSError from open itself is
not caught and propagates. -/
def parse_txt (fd : FileData) : Except Err String :=
  if fd.readErr then .error .osError
  else
    match ENCODINGS.findSome? (decodeWith fd) with
    | some s => .ok s
    | none => .ok ""

/-- parse_docx (crawler.py lines 61-69): empty string when python-docx is
missing; otherwise join the paragraphs with non-whitespace text by newlines;
any library exception is caught and yields the empty string. -/
def parse_docx (cfg : Config) (fd : FileData) : String :=
  if !cfg.HAS_DOCX then ""
  else
    match fd.view with
    | .docx ps => String.intercalate "\n" (ps.filter (fun p => pyStrip p != ""))
    | _ => ""

/-- The joined row string of parse_xlsx (crawler.py line 81): the str values of
the non-None cells, separated by a space-pipe-space delimiter. -/
def rowStr (row : List (Option String)) : String :=
  String.intercalate " | " (row.filterMap id)

/-- The accumulation loop of parse_xlsx (crawler.py lines 77-83): for each
sheet in workbook order, for each row, append the joined row string when it
has a non-whitespace character. -/
def xlsxParts (wb : List (List (List (Option String)))) : List String :=
  wb.foldl (fun parts sheet =>
    sheet.foldl (fun parts row =>
      if pyStrip (rowStr row) != "" then parts ++ [rowStr row] else parts) parts) []

/-- parse_xlsx (crawler.py lines 72-88): empty string when openpyxl is missing
or the library raises; otherwise the newline join of the accumulated row
strings. -/
def parse_xlsx (cfg : Config) (fd : FileData) : String :=
  if !cfg.HAS_XLSX then ""
  else
    match fd.view with
    | .sheets wb => String.intercalate "\n" (xlsxParts wb)
    | _ => ""

/-- parse_pdf (crawler.py lines 91-104): newline join of the page texts that
are neither None nor empty; empty string when pdfplumber is missing or
raises. -/
def parse_pdf (cfg : Config) (fd : FileData) : String :=
  if !cfg.HAS_PDF then ""
  else
    match fd.view with
    | .pdfPages pages =>
      String.intercalate "\n" (pages.filterMap (fun t =>
        match t with
        | some s => if s != "" then some s else none
        | none => none))
    | _ => ""

/-- Keys of the static PARSERS dict (crawler.py lines 107-114), in source
order. -/
def PARSER_KEYS : List String := [".txt", ".docx", ".xlsx", ".xls", ".pdf", ".csv"]

/-- ARCHIVE_EXTS (crawler.py line 171). -/
def ARCHIVE_EXTS : List String := [".zip", ".7z", ".rar"]

/-- SUPPORTED_EXTS (crawler.py line 172): parser keys united with archive
extensions. -/
def SUPPORTED_EXTS : List String := PARSER_KEYS ++ ARCHIVE_EXTS

/-- extract_text (crawler.py lines 117-122): look the lowercased suffix up in
the static PARSERS dict; none when absent, otherwise the parser's result.
Only parse_txt can raise (OSError from open); the other parsers catch all
their exceptions. -/
def extract_text (cfg : Config) (fd : FileData) (filepath : String) :
    Except Err (Option String) :=
  let ext := suffixLower filepath
  if ext = ".txt" then (parse_txt fd).map some
  else if ext = ".docx" then .ok (some (parse_docx cfg fd))
  else if ext = ".xlsx" then .ok (some (parse_xlsx cfg fd))
  else if ext = ".xls" then .ok (some (parse_xlsx cfg fd))
  else if ext = ".pdf" then .ok (some (parse_pdf cfg fd))
  else if ext = ".csv" then (parse_txt fd).map some
  else .ok none

/-- file_hash (crawler.py lines 125-130): digest of the file bytes, or OSError
when the file cannot be read. -/
def file_hash (cfg : Config) (fd : FileData) : Except Err String :=
  if fd.hashErr then .error .osError else .ok (cfg.md5 fd.bytes)

/-- Deterministic stand-in for the fresh temporary directory created by one
unpack call (tempfile.TemporaryDirectory); each unpack owns its directory
exclusively, so any injective naming is observationally equivalent. -/
def tmpPath (p : String) : String := p ++ "~tmp"

/-- The pending work of the crawl: walking a whole tree (the files pass then
the directories pass, matching the top-down order of os.walk), one of the two
passes, or processing one archive file. -/
inductive Job where
  | tree (dirpath : String) (t : FsTree)
  | files (dirpath : String) (t : FsTree)
  | dirs (dirpath : String) (t : FsTree)
  | arch (path : String) (fd : FileData) (unpackOk : Bool) (contents : FsTree)
      (parent : String)

def Job.isWalk : Job → Bool
  | .arch _ _ _ _ _ => false
  | _ => true

/-- The crawl engine.  The walk jobs model crawl_directory (crawler.py lines
175-220): one seen-hash set per crawl_directory invocation, threaded across
the whole walk; per file, the supported-extension gate, the archive branch,
hashing with OSError caught (continue), the in-session dedup check, the hash
added to the seen set before extraction, the unreachable skip branch when
extract_text yields none, os.stat with OSError not caught, and the record.
The arch job models process_archive (lines 147-168): dispatch on the archive
suffix, unpack into a fresh temporary directory (failures caught, zero
records), the missing-py7zr case that leaves the temporary directory empty,
the label being the parent label when nonempty and the archive's own path
otherwise, a recursive crawl of the unpacked tree with a fresh seen set, and
the overwrite of source_archive on every resulting record. -/
def crawlGo (cfg : Config) : Nat → Job → String → List String →
    Except Err (List Record × List String)
  | 0, _, _, _ => .error .fuelOut
  | fuel + 1, .tree dirpath t, label, seen =>
    match crawlGo cfg fuel (.files dirpath t) label seen with
    | .error e => .error e
    | .ok (rs1, seen1) =>
      match crawlGo cfg fuel (.dirs dirpath t) label seen1 with
      | .error e => .error e
      | .ok (rs2, seen2) => .ok (rs1 ++ rs2, seen2)
  | _ + 1, .files _ .nil, _, seen => .ok ([], seen)
  | fuel + 1, .files dirpath (.subdir _ _ rest), label, seen =>
    crawlGo cfg fuel (.files dirpath rest) label seen
  | fuel + 1, .files dirpath (.file fd uok contents rest), label, seen =>
      if suffixLower fd.name ∈ SUPPORTED_EXTS then
        if suffixLower fd.name ∈ ARCHIVE_EXTS then
          match crawlGo cfg fuel
              (.arch (dirpath ++ "/" ++ fd.name) fd uok contents
                (dirpath ++ "/" ++ fd.name)) label seen with
          | .error e => .error e
          | .ok (subRecs, _) =>
            match crawlGo cfg fuel (.files dirpath rest) label seen with
            | .error e => .error e
            | .ok (rs, seen1) => .ok (subRecs ++ rs, seen1)
        else
          match file_hash cfg fd with
          | .error _ => crawlGo cfg fuel (.files dirpath rest) label seen
          | .ok fhash =>
            if fhash ∈ seen then crawlGo cfg fuel (.files dirpath rest) label seen
            else
              match extract_text cfg fd (dirpath ++ "/" ++ fd.name) with
              | .error e => .error e
              | .ok none => crawlGo cfg fuel (.files dirpath rest) label (fhash :: seen)
              | .ok (some text) =>
                if fd.statErr then .error .osError
                else
                  match crawlGo cfg fuel (.files dirpath rest) label (fhash :: seen) with
                  | .error e => .error e
                  | .ok (rs, seen1) =>
                    .ok ({ file_path := dirpath ++ "/" ++ fd.name,
                           file_name := fd.name,
                           extension := lstripDots (suffixLower fd.name),
                           size_bytes := fd.size,
                           modified_at := fd.mtime,
                           source_archive := label,
                           content := pyStrip text,
                           file_hash := fhash } :: rs, seen1)
      else crawlGo cfg fuel (.files dirpath rest) label seen
  | _ + 1, .dirs _ .nil, _, seen => .ok ([], seen)
  | fuel + 1, .dirs dirpath (.file _ _ _ rest), label, seen =>
    crawlGo cfg fuel (.dirs dirpath rest) label seen
  | fuel + 1, .dirs dirpath (.subdir dname sub rest), label, seen =>
    match crawlGo cfg fuel (.tree (dirpath ++ "/" ++ dname) sub) label seen with
    | .error e => .error e
    | .ok (rs1, seen1) =>
      match crawlGo cfg fuel (.dirs dirpath rest) label seen1 with
      | .error e => .error e
      | .ok (rs2, seen2) => .ok (rs1 ++ rs2, seen2)
  | fuel + 1, .arch path fd uok contents parent, _, seen =>
    if suffixLower fd.name = ".zip" then
      if uok then
        match crawlGo cfg fuel (.tree (tmpPath path) contents)
            (if parent = "" then path else parent) [] with
        | .error e => .error e
        | .ok (rs, _) =>
          .ok (rs.map (fun r =>
            { r with source_archive := if parent = "" then path else parent }), seen)
      else .ok ([], seen)
    else if suffixLower fd.name = ".7z" then
      if cfg.HAS_7Z then
        if uok then
          match crawlGo cfg fuel (.tree (tmpPath path) contents)
              (if parent = "" then path else parent) [] with
          | .error e => .error e
          | .ok (rs, _) =>
            .ok (rs.map (fun r =>
              { r with source_archive := if parent = "" then path else parent }), seen)
        else .ok ([], seen)
      else
        match crawlGo cfg fuel (.tree (tmpPath path) .nil)
            (if parent = "" then path else parent) [] with
        | .error e => .error e
        | .ok (rs, _) =>
          .ok (rs.map (fun r =>
            { r with source_archive := if parent = "" then path else parent }), seen)
    else .ok ([], seen)

/-- process_archive (crawler.py lines 147-168), as invoked on one archive
file. -/
def process_archive (cfg : Config) (fuel : Nat) (path : String) (fd : FileData)
    (uok : Bool) (contents : FsTree) (parent : String) : Except Err (List Record) :=
  (crawlGo cfg fuel (.arch path fd uok contents parent) "" []).map (fun p => p.1)

/-- crawl_directory (crawler.py lines 175-220): walk the tree with a fresh
seen-hash set and return the records. -/
def crawl_directory (cfg : Config) (fuel : Nat) (root : String) (t : FsTree)
    (label : String) : Except Err (List Record) :=
  (crawlGo cfg fuel (.tree root t) label []).map (fun p => p.1)

/-- FIELDNAMES (crawler.py lines 223-227). -/
def FIELDNAMES : List String :=
  ["file_path", "file_name", "extension", "size_bytes", "modified_at",
   "source_archive", "content", "file_hash"]

/-- One CSV row of a record, in the fixed field order. -/
def recordRow (r : Record) : List String :=
  [r.file_path, r.file_name, r.extension, toString r.size_bytes, r.modified_at,
   r.source_archive, r.content, r.file_hash]

/-- save_csv (crawler.py lines 230-236), modelled as the written rows: the
header line followed by one row per record. -/
def save_csv (records : List Record) : List (List String) :=
  FIELDNAMES :: records.map recordRow

/-- One INSERT OR IGNORE into the documents table (crawler.py lines 276-285):
the row is appended unless its file_hash already occurs (UNIQUE constraint on
file_hash, violation ignored). -/
def insertOrIgnore (db : List Record) (r : Record) : List Record :=
  if r.file_hash ∈ db.map (fun x => x.file_hash) then db else db ++ [r]

/-- load_to_sqlite (crawler.py lines 240-295), restricted to the metadata
relation: insert each record in order with INSERT OR IGNORE.  The derived
full-text relation is rebuilt from the metadata relation afterwards and adds
no rows to it. -/
def load_to_sqlite (db : List Record) (records : List Record) : List Record :=
  records.foldl insertOrIgnore db

/-- main (crawler.py lines 299-316), modelled as the pair of outputs written:
crawl, then if no records were found return with neither output written (not
an error); otherwise the CSV rows and the loaded store. -/
def main_run (cfg : Config) (fuel : Nat) (root : String) (t : FsTree)
    (db0 : List Record) :
    Except Err (Option (List (List String)) × Option (List Record)) :=
  match crawl_directory cfg fuel root t "" with
  | .error e => .error e
  | .ok records =>
    if records.isEmpty then .ok (none, none)
    else .ok (some (save_csv records), some (load_to_sqlite db0 records))

/-- Fingerprints of the records produced for directly walked files: exactly
the records whose source_archive is empty, since every archive-derived record
is tagged with the nonempty path of its archive. -/
def directHashes (rs : List Record) : List String :=
  (rs.filter (fun r => r.source_archive == "")).map (fun r => r.file_hash)

/-- Concrete digest stand-in used in closed witnesses and counterexamples;
like md5 it is deterministic, which is the only property the statements use. -/
def md5Stub : List Nat → String := fun bs => toString bs

/-- Configuration with every optional decoder available. -/
def cfgAll : Config := { md5 := md5Stub }

/-- The spreadsheet extraction rule as the claim words it: a row's joined line
is included if and only if the row has at least one non-null cell.  Written
from the claim, for comparison with parse_xlsx, which is written from the
source. -/
def parse_xlsx_claim (wb : List (List (List (Option String)))) : String :=
  String.intercalate "\n"
    ((wb.map (fun sheet =>
      (sheet.filter (fun row => row.any (fun c => c.isSome))).map rowStr)).flatten)

/-- Six conjuncts of the per-job crawl invariant: the seen set only grows, and
the fingerprints of the records produced for directly walked files (label
empty) are distinct, all recorded in the final seen set and none present in
the initial one. -/
def WalkInv (label : String) (seen : List String) (rs : List Record)
    (seen2 : List String) : Prop :=
  (∀ h ∈ seen, h ∈ seen2) ∧
  (label ≠ "" → directHashes rs = []) ∧
  (directHashes rs).Nodup ∧
  (∀ h ∈ directHashes rs, h ∈ seen2 ∧ h ∉ seen)

/-- Tree with the same byte content at top level and inside a zip archive. -/
def c1tree : FsTree :=
  .file { name := "a.txt", bytes := [65], utf8Dec := some "A" } false .nil
    (.file { name := "z.zip", bytes := [1, 2] } true
      (.file { name := "b.txt", bytes := [65], utf8Dec := some "A" } false .nil .nil)
      .nil)

/-- The two records the crawl of c1tree produces: identical fingerprints. -/
def c1records : List Record :=
  [{ file_path := "root/a.txt", file_name := "a.txt", extension := "txt",
     size_bytes := 0, modified_at := "", source_archive := "", content := "A",
     file_hash := "[65]" },
   { file_path := "root/z.zip~tmp/b.txt", file_name := "b.txt", extension := "txt",
     size_bytes := 0, modified_at := "", source_archive := "root/z.zip",
     content := "A", file_hash := "[65]" }]

/-- Tree with two directly walked files of identical byte content. -/
def c1wtree : FsTree :=
  .file { name := "a.txt", bytes := [65], utf8Dec := some "A" } false .nil
    (.file { name := "b.txt", bytes := [65], utf8Dec := some "A" } false .nil .nil)

/-- The single record the crawl of c1wtree produces. -/
def c1wrecords : List Record :=
  [{ file_path := "rootW/a.txt", file_name := "a.txt", extension := "txt",
     size_bytes := 0, modified_at := "", source_archive := "", content := "A",
     file_hash := "[65]" }]

/-- Configuration of a run in which python-docx failed to import. -/
def cfgNoDocx : Config := { HAS_DOCX := false, md5 := md5Stub }

/-- A healthy .docx file with one paragraph of text. -/
def c2fd : FileData := { name := "d.docx", bytes := [1], view := .docx ["Hello"] }

def c2tree : FsTree := .file c2fd false .nil .nil

/-- The record the crawl produces for c2fd when python-docx is missing. -/
def c2rec : Record :=
  { file_path := "root/d.docx", file_name := "d.docx", extension := "docx",
    size_bytes := 0, modified_at := "", source_archive := "", content := "",
    file_hash := "[1]" }

/-- Contents of the inner archive of the nested-archive scenario. -/
def c3inner : FsTree :=
  .file { name := "f.txt", bytes := [70], utf8Dec := some "F" } false .nil .nil

/-- Contents of the outer archive: a zip containing another zip. -/
def c3contents : FsTree := .file { name := "inner.zip", bytes := [9] } true c3inner .nil

def c3fdOuter : FileData := { name := "outer.zip", bytes := [8] }

/-- The record for the file inside the inner archive: its source_archive is
the enclosing label, not the inner archive's own path. -/
def c3rec : Record :=
  { file_path := "root/outer.zip~tmp/inner.zip~tmp/f.txt", file_name := "f.txt",
    extension := "txt", size_bytes := 0, modified_at := "",
    source_archive := "root/outer.zip", content := "F", file_hash := "[70]" }

/-- Three text files; stating the second raises OSError (it vanished between
hashing and the os.stat call). -/
def c4tree : FsTree :=
  .file { name := "a.txt", bytes := [65], utf8Dec := some "A" } false .nil
    (.file { name := "b.txt", bytes := [66], utf8Dec := some "B", statErr := true }
      false .nil
      (.file { name := "c.txt", bytes := [67], utf8Dec := some "C" } false .nil .nil))

/-- The same three files with no I/O failure. -/
def c4treeOk : FsTree :=
  .file { name := "a.txt", bytes := [65], utf8Dec := some "A" } false .nil
    (.file { name := "b.txt", bytes := [66], utf8Dec := some "B" } false .nil
      (.file { name := "c.txt", bytes := [67], utf8Dec := some "C" } false .nil .nil))

def c4okRecords : List Record :=
  [{ file_path := "root/a.txt", file_name := "a.txt", extension := "txt",
     size_bytes := 0, modified_at := "", source_archive := "", content := "A",
     file_hash := "[65]" },
   { file_path := "root/b.txt", file_name := "b.txt", extension := "txt",
     size_bytes := 0, modified_at := "", source_archive := "", content := "B",
     file_hash := "[66]" },
   { file_path := "root/c.txt", file_name := "c.txt", extension := "txt",
     size_bytes := 0, modified_at := "", source_archive := "", content := "C",
     file_hash := "[67]" }]

def r5a : Record :=
  { file_path := "p1", file_name := "n1", extension := "txt", size_bytes := 1,
    modified_at := "m1", source_archive := "", content := "x", file_hash := "h1" }

/-- Same fingerprint as r5a, different metadata. -/
def r5b : Record :=
  { file_path := "p2", file_name := "n2", extension := "txt", size_bytes := 2,
    modified_at := "m2", source_archive := "", content := "y", file_hash := "h1" }

def r5c : Record :=
  { file_path := "p3", file_name := "n3", extension := "txt", size_bytes := 3,
    modified_at := "m3", source_archive := "", content := "z", file_hash := "h2" }

/-- A text file whose bytes decode under neither utf-8 nor cp1251. -/
def c6fd : FileData := { name := "t.txt", bytes := [72, 200] }

/-- One sheet, two rows: one ordinary cell and one lone whitespace cell. -/
def wb7 : List (List (List (Option String))) := [[[some "a"], [some " "]]]

def fd7 : FileData := { name := "s.xlsx", view := .sheets wb7 }

def rarFd : FileData := { name := "x.rar", bytes := [3] }

def c10fd : FileData := { name := "a.txt", bytes := [65], utf8Dec := some "A" }

/-! Helper lemmas. -/

theorem char_toNat_ofNat_of_lt (n : Nat) (h : n < 256) : (Char.ofNat n).toNat = n := by
  have hv : Nat.isValidChar n := Or.inl (by omega)
  unfold Char.ofNat
  rw [dif_pos hv]
  rfl

theorem slash_path_ne_empty (a b : String) : a ++ "/" ++ b ≠ "" := by
  intro h
  have hl : (a ++ "/" ++ b).length = (0 : Nat) := by rw [h]; rfl
  rw [String.length_append, String.length_append] at hl
  have h1 : ("/" : String).length = 1 := rfl
  omega

theorem directHashes_nil : directHashes [] = [] := rfl

theorem directHashes_cons (r : Record) (rs : List Record) :
    directHashes (r :: rs) =
      if r.source_archive = "" then r.file_hash :: directHashes rs
      else directHashes rs := by
  by_cases h : r.source_archive = "" <;> simp [directHashes, List.filter_cons, h]

theorem directHashes_append (rs1 rs2 : List Record) :
    directHashes (rs1 ++ rs2) = directHashes rs1 ++ directHashes rs2 := by
  simp [directHashes, List.filter_append]

theorem directHashes_eq_nil (rs : List Record)
    (h : ∀ r ∈ rs, r.source_archive ≠ "") : directHashes rs = [] := by
  induction rs with
  | nil => rfl
  | cons r rs ih =>
    rw [directHashes_cons, if_neg (h r (by simp))]
    exact ih (fun x hx => h x (by simp [hx]))

/-- Inversion of the arch job: process_archive leaves the caller's seen set
untouched and tags every returned record with the enclosing label. -/
theorem crawlGo_arch_spec (cfg : Config) (fuel : Nat) (path : String)
    (fd : FileData) (uok : Bool) (contents : FsTree) (parent label : String)
    (seen : List String) (rs : List Record) (seen2 : List String)
    (h : crawlGo cfg fuel (.arch path fd uok contents parent) label seen =
      .ok (rs, seen2)) :
    seen2 = seen ∧
      ∀ r ∈ rs, r.source_archive = (if parent = "" then path else parent) := by
  cases fuel with
  | zero => simp [crawlGo] at h
  | succ fuel =>
    simp only [crawlGo] at h
    repeat' split at h
    all_goals first
      | exact Except.noConfusion h
      | (simp only [Except.ok.injEq, Prod.mk.injEq] at h
         obtain ⟨h1, h2⟩ := h
         subst h1
         subst h2
         refine ⟨rfl, ?_⟩
         intro r hr
         first
           | cases hr
           | (simp only [List.mem_map] at hr
              obtain ⟨r0, hr0, rfl⟩ := hr
              simp [*]))

theorem walkInv_refl (label : String) (seen : List String) :
    WalkInv label seen [] seen :=
  ⟨fun _ hh => hh, fun _ => rfl, List.nodup_nil,
   fun h hh => (List.not_mem_nil h hh).elim⟩

theorem walkInv_append {label : String} {seen seen1 seen2 : List String}
    {rs1 rs2 : List Record}
    (H1 : WalkInv label seen rs1 seen1) (H2 : WalkInv label seen1 rs2 seen2) :
    WalkInv label seen (rs1 ++ rs2) seen2 := by
  obtain ⟨m1, e1, n1, p1⟩ := H1
  obtain ⟨m2, e2, n2, p2⟩ := H2
  refine ⟨fun h hh => m2 h (m1 h hh), ?_, ?_, ?_⟩
  · intro hl
    rw [directHashes_append, e1 hl, e2 hl]
    rfl
  · rw [directHashes_append, List.nodup_append]
    refine ⟨n1, n2, ?_⟩
    intro a ha1 ha2
    exact (p2 a ha2).2 ((p1 a ha1).1)
  · intro h hh
    rw [directHashes_append] at hh
    rcases List.mem_append.mp hh with h1 | h2
    · exact ⟨m2 h (p1 h h1).1, (p1 h h1).2⟩
    · exact ⟨(p2 h h2).1, fun hc => (p2 h h2).2 (m1 h hc)⟩

theorem walkInv_drop {label s : String} {seen : List String} {rs : List Record}
    {seen2 : List String} (H : WalkInv label (s :: seen) rs seen2) :
    WalkInv label seen rs seen2 :=
  ⟨fun h hh => H.1 h (List.mem_cons_of_mem s hh), H.2.1, H.2.2.1,
   fun h hh => ⟨(H.2.2.2 h hh).1,
     fun hc => (H.2.2.2 h hh).2 (List.mem_cons_of_mem s hc)⟩⟩

theorem walkInv_record {label : String} {seen : List String} {fhash : String}
    {r : Record} {rs : List Record} {seen2 : List String}
    (hr1 : r.source_archive = label) (hr2 : r.file_hash = fhash)
    (hfresh : fhash ∉ seen)
    (H : WalkInv label (fhash :: seen) rs seen2) :
    WalkInv label seen (r :: rs) seen2 := by
  obtain ⟨m, e, n, p⟩ := H
  by_cases hl : label = ""
  · subst hl
    have hcons : directHashes (r :: rs) = fhash :: directHashes rs := by
      rw [directHashes_cons, if_pos hr1, hr2]
    refine ⟨fun h hh => m h (List.mem_cons_of_mem _ hh),
            fun hc => absurd rfl hc, ?_, ?_⟩
    · rw [hcons]
      refine List.nodup_cons.mpr ⟨?_, n⟩
      intro hmem
      exact (p fhash hmem).2 (List.mem_cons_self _ _)
    · intro h hh
      rw [hcons] at hh
      rcases List.mem_cons.mp hh with rfl | hh'
      · exact ⟨m h (List.mem_cons_self _ _), hfresh⟩
      · exact ⟨(p h hh').1, fun hc => (p h hh').2 (List.mem_cons_of_mem _ hc)⟩
  · have hcons : directHashes (r :: rs) = directHashes rs := by
      rw [directHashes_cons,
        if_neg (show ¬ r.source_archive = "" by rw [hr1]; exact hl)]
    have hnil : directHashes rs = [] := e hl
    refine ⟨fun h hh => m h (List.mem_cons_of_mem _ hh),
            fun _ => by rw [hcons, hnil],
            by rw [hcons, hnil]; exact List.nodup_nil, fun h hh => ?_⟩
    rw [hcons, hnil] at hh
    exact (List.not_mem_nil h hh).elim

theorem walkInv_arch_prefix {label : String} {seen : List String}
    {subRecs rs : List Record} {seen2 : List String}
    (hsub : directHashes subRecs = [])
    (H : WalkInv label seen rs seen2) :
    WalkInv label seen (subRecs ++ rs) seen2 := by
  obtain ⟨m, e, n, p⟩ := H
  refine ⟨m, ?_, ?_, ?_⟩
  · intro hl
    rw [directHashes_append, hsub, List.nil_append]
    exact e hl
  · rw [directHashes_append, hsub, List.nil_append]
    exact n
  · intro h hh
    rw [directHashes_append, hsub, List.nil_append] at hh
    exact p h hh

/-- The per-job crawl invariant: any successful walk job grows the seen set
monotonically and produces duplicate-free, freshly seen fingerprints for the
directly walked files. -/
theorem crawlGo_walk_inv (cfg : Config) :
    ∀ (fuel : Nat) (job : Job) (label : String) (seen : List String)
      (rs : List Record) (seen2 : List String),
      job.isWalk = true →
      crawlGo cfg fuel job label seen = .ok (rs, seen2) →
      WalkInv label seen rs seen2 := by
  intro fuel
  induction fuel with
  | zero =>
    intro job label seen rs seen2 _ h
    simp [crawlGo] at h
  | succ fuel ih =>
    intro job label seen rs seen2 hw h
    cases job with
    | arch p f u c pa => simp [Job.isWalk] at hw
    | tree dirpath t =>
      simp only [crawlGo] at h
      split at h
      · exact Except.noConfusion h
      · rename_i rs1 seen1 h1
        split at h
        · exact Except.noConfusion h
        · rename_i rs2 s2 h2
          simp only [Except.ok.injEq, Prod.mk.injEq] at h
          obtain ⟨hr, hs⟩ := h
          rw [← hr, ← hs]
          exact walkInv_append
            (ih (Job.files dirpath t) label seen rs1 seen1 rfl h1)
            (ih (Job.dirs dirpath t) label seen1 rs2 s2 rfl h2)
    | dirs dirpath t =>
      cases t with
      | nil =>
        simp only [crawlGo, Except.ok.injEq, Prod.mk.injEq] at h
        obtain ⟨hr, hs⟩ := h
        rw [← hr, ← hs]
        exact walkInv_refl label seen
      | file fd uok contents rest =>
        simp only [crawlGo] at h
        exact ih (Job.dirs dirpath rest) label seen rs seen2 rfl h
      | subdir dname sub rest =>
        simp only [crawlGo] at h
        split at h
        · exact Except.noConfusion h
        · rename_i rs1 seen1 h1
          split at h
          · exact Except.noConfusion h
          · rename_i rs2 s2 h2
            simp only [Except.ok.injEq, Prod.mk.injEq] at h
            obtain ⟨hr, hs⟩ := h
            rw [← hr, ← hs]
            exact walkInv_append
              (ih (Job.tree (dirpath ++ "/" ++ dname) sub) label seen rs1 seen1 rfl h1)
              (ih (Job.dirs dirpath rest) label seen1 rs2 s2 rfl h2)
    | files dirpath t =>
      cases t with
      | nil =>
        simp only [crawlGo, Except.ok.injEq, Prod.mk.injEq] at h
        obtain ⟨hr, hs⟩ := h
        rw [← hr, ← hs]
        exact walkInv_refl label seen
      | subdir dname sub rest =>
        simp only [crawlGo] at h
        exact ih (Job.files dirpath rest) label seen rs seen2 rfl h
      | file fd uok contents rest =>
        simp only [crawlGo] at h
        split at h
        · -- supported extension
          split at h
          · -- archive branch
            split at h
            · exact Except.noConfusion h
            · rename_i subRecs sdrop harch
              split at h
              · exact Except.noConfusion h
              · rename_i rs1 seen1 hrest
                simp only [Except.ok.injEq, Prod.mk.injEq] at h
                obtain ⟨hr, hs⟩ := h
                rw [← hr, ← hs]
                have hlbl := (crawlGo_arch_spec cfg fuel _ fd uok contents _
                  label seen subRecs sdrop harch).2
                have hsub : directHashes subRecs = [] := by
                  apply directHashes_eq_nil
                  intro r hr0
                  rw [hlbl r hr0, ite_self]
                  exact slash_path_ne_empty dirpath fd.name
                exact walkInv_arch_prefix hsub
                  (ih (Job.files dirpath rest) label seen rs1 seen1 rfl hrest)
          · -- extractable branch
            split at h
            · -- file_hash raised OSError: skip
              exact ih (Job.files dirpath rest) label seen rs seen2 rfl h
            · rename_i fhash hfh
              split at h
              · -- duplicate fingerprint: skip
                exact ih (Job.files dirpath rest) label seen rs seen2 rfl h
              · rename_i hfresh
                split at h
                · exact Except.noConfusion h
                · -- extract_text gave none: hash already recorded, no record
                  exact walkInv_drop
                    (ih (Job.files dirpath rest) label (fhash :: seen) rs seen2 rfl h)
                · rename_i text hex
                  split at h
                  · exact Except.noConfusion h
                  · rename_i hstat
                    split at h
                    · exact Except.noConfusion h
                    · rename_i rs1 seen1 hrest
                      simp only [Except.ok.injEq, Prod.mk.injEq] at h
                      obtain ⟨hr, hs⟩ := h
                      rw [← hr, ← hs]
                      exact walkInv_record rfl rfl hfresh
                        (ih (Job.files dirpath rest) label (fhash :: seen) rs1 seen1 rfl hrest)
        · -- unsupported extension: skip
          exact ih (Job.files dirpath rest) label seen rs seen2 rfl h

/-! Index Builder helper lemmas. -/

theorem insertOrIgnore_of_mem (db : List Record) (r : Record)
    (h : r.file_hash ∈ db.map (fun x => x.file_hash)) :
    insertOrIgnore db r = db := by
  unfold insertOrIgnore
  rw [if_pos h]

theorem self_mem_insertOrIgnore (db : List Record) (r : Record) :
    r.file_hash ∈ (insertOrIgnore db r).map (fun x => x.file_hash) := by
  unfold insertOrIgnore
  split
  · rename_i hm
    exact hm
  · simp

theorem load_hashes_mono : ∀ (rs db : List Record) (s : String),
    s ∈ db.map (fun x => x.file_hash) →
    s ∈ (load_to_sqlite db rs).map (fun x => x.file_hash) := by
  intro rs
  induction rs with
  | nil =>
    intro db s hs
    exact hs
  | cons a rest ih =>
    intro db s hs
    have hstep : s ∈ (insertOrIgnore db a).map (fun x => x.file_hash) := by
      unfold insertOrIgnore
      split
      · exact hs
      · simp only [List.map_append]
        exact List.mem_append_left _ hs
    exact ih (insertOrIgnore db a) s hstep

theorem mem_hashes_load : ∀ (rs db : List Record) (r : Record), r ∈ rs →
    r.file_hash ∈ (load_to_sqlite db rs).map (fun x => x.file_hash) := by
  intro rs
  induction rs with
  | nil =>
    intro db r hr
    cases hr
  | cons a rest ih =>
    intro db r hr
    rcases List.mem_cons.mp hr with rfl | hr'
    · exact load_hashes_mono rest (insertOrIgnore db r) r.file_hash
        (self_mem_insertOrIgnore db r)
    · exact ih (insertOrIgnore db a) r hr'

theorem load_eq_of_all_present : ∀ (rs db : List Record),
    (∀ r ∈ rs, r.file_hash ∈ db.map (fun x => x.file_hash)) →
    load_to_sqlite db rs = db := by
  intro rs
  induction rs with
  | nil =>
    intro db _
    rfl
  | cons a rest ih =>
    intro db hall
    have ha : insertOrIgnore db a = db := insertOrIgnore_of_mem db a (hall a (by simp))
    show List.foldl insertOrIgnore (insertOrIgnore db a) rest = db
    rw [ha]
    exact ih db (fun r hr => hall r (by simp [hr]))

/-! Format Extractor Registry helper lemmas. -/

theorem xlsxParts_sheet (sheet : List (List (Option String))) :
    ∀ parts : List String,
      sheet.foldl (fun parts row =>
        if pyStrip (rowStr row) != "" then parts ++ [rowStr row] else parts) parts =
      parts ++ (sheet.map rowStr).filter (fun s => pyStrip s != "") := by
  induction sheet with
  | nil =>
    intro parts
    simp
  | cons row rest ih =>
    intro parts
    rw [List.foldl_cons, ih, List.map_cons, List.filter_cons]
    by_cases hcond : (pyStrip (rowStr row) != "") = true
    · simp [hcond, List.append_assoc]
    · simp [hcond]

theorem xlsxParts_eq (wb : List (List (List (Option String)))) :
    xlsxParts wb =
      (wb.map (fun sheet =>
        (sheet.map rowStr).filter (fun s => pyStrip s != ""))).flatten := by
  have hgen : ∀ parts : List String,
      wb.foldl (fun parts sheet =>
        sheet.foldl (fun parts row =>
          if pyStrip (rowStr row) != "" then parts ++ [rowStr row] else parts) parts)
        parts =
      parts ++ (wb.map (fun sheet =>
        (sheet.map rowStr).filter (fun s => pyStrip s != ""))).flatten := by
    induction wb with
    | nil =>
      intro parts
      simp
    | cons sheet rest ih =>
      intro parts
      rw [List.foldl_cons, xlsxParts_sheet, ih, List.map_cons, List.flatten_cons,
        List.append_assoc]
  have := hgen []
  rw [List.nil_append] at this
  exact this

/-! Claim theorems. -/

/-- C1, counterexample: the session-wide fingerprint-uniqueness claim is false
at a concrete input.  A tree holding the same byte content both directly and
inside a zip archive yields two Document Records with the same fingerprint,
because each archive is crawled with its own fresh seen-set. -/
theorem c1_duplicate_fingerprints_across_archive :
    crawl_directory cfgAll 10 "root" c1tree "" = .ok c1records ∧
    ¬ (c1records.map (fun r => r.file_hash)).Nodup := by
  constructor
  · rfl
  · decide

/-- C1, amended: within one crawl_directory session the fingerprint is unique
among the records produced for directly walked files (those whose
source_archive is empty); files inside archives are deduplicated only within
each archive's own nested crawl. -/
theorem c1_direct_fingerprints_unique :
    ∀ (cfg : Config) (fuel : Nat) (root : String) (t : FsTree) (rs : List Record),
      crawl_directory cfg fuel root t "" = .ok rs →
      (directHashes rs).Nodup := by
  intro cfg fuel root t rs h
  unfold crawl_directory at h
  cases hc : crawlGo cfg fuel (.tree root t) "" [] with
  | error e =>
    rw [hc] at h
    exact Except.noConfusion h
  | ok p =>
    obtain ⟨rs0, seen2⟩ := p
    rw [hc] at h
    simp only [Except.map, Except.ok.injEq] at h
    rw [← h]
    exact (crawlGo_walk_inv cfg fuel (Job.tree root t) "" [] rs0 seen2 rfl hc).2.2.1

/-- C1, witness for the amended theorem: two directly walked files with
identical byte content produce exactly one record, with a duplicate-free
fingerprint list. -/
theorem c1_direct_fingerprints_unique_witness :
    crawl_directory cfgAll 10 "rootW" c1wtree "" = .ok c1wrecords ∧
    (directHashes c1wrecords).Nodup :=
  ⟨by rfl, c1_direct_fingerprints_unique cfgAll 10 "rootW" c1wtree c1wrecords (by rfl)⟩

/-- C2, counterexample: with python-docx missing, a .docx file is not skipped;
extract_text reports the supported-empty result (some empty string, not the
unsupported signal none) and the crawl produces a Document Record with empty
content. -/
theorem c2_missing_decoder_still_records :
    extract_text cfgNoDocx c2fd "root/d.docx" = .ok (some "") ∧
    crawl_directory cfgNoDocx 10 "root" c2tree "" = .ok [c2rec] ∧
    c2rec.content = "" := ⟨by rfl, by rfl, rfl⟩

/-- C2, amended: the parser table is static, so an extension whose decoder
failed to initialize stays registered; its parser returns the empty string and
extract_text reports supported-with-empty-result, never the unsupported
signal, for .docx, .xlsx, .xls and .pdf files. -/
theorem c2_static_registry_missing_decoder :
    ∀ (cfg : Config) (fd : FileData) (p : String),
      (cfg.HAS_DOCX = false → suffixLower p = ".docx" →
        extract_text cfg fd p = .ok (some "")) ∧
      (cfg.HAS_XLSX = false → suffixLower p = ".xlsx" ∨ suffixLower p = ".xls" →
        extract_text cfg fd p = .ok (some "")) ∧
      (cfg.HAS_PDF = false → suffixLower p = ".pdf" →
        extract_text cfg fd p = .ok (some "")) := by
  intro cfg fd p
  refine ⟨?_, ?_, ?_⟩
  · intro hc hext
    simp +decide [extract_text, hext, parse_docx, hc]
  · intro hc hext
    rcases hext with hext | hext <;> simp +decide [extract_text, hext, parse_xlsx, hc]
  · intro hc hext
    simp +decide [extract_text, hext, parse_pdf, hc]

/-- C2, witness for the amended theorem at a concrete missing-docx run. -/
theorem c2_static_registry_witness :
    cfgNoDocx.HAS_DOCX = false ∧
    suffixLower "root/d.docx" = ".docx" ∧
    extract_text cfgNoDocx c2fd "root/d.docx" = .ok (some "") :=
  ⟨rfl, by decide,
   (c2_static_registry_missing_decoder cfgNoDocx c2fd "root/d.docx").1 rfl (by decide)⟩

/-- C3 (confirmed): every Document Record returned by process_archive —
including the records of archives nested inside this archive — carries as
source_archive the single label of the enclosing unpack call (the parent
label when nonempty, else the archive's own path), because process_archive
overwrites the field on every record of the recursive crawl. -/
theorem c3_archive_records_carry_enclosing_label :
    ∀ (cfg : Config) (fuel : Nat) (path : String) (fd : FileData) (uok : Bool)
      (contents : FsTree) (parent : String) (rs : List Record),
      process_archive cfg fuel path fd uok contents parent = .ok rs →
      ∀ r ∈ rs, r.source_archive = (if parent = "" then path else parent) := by
  intro cfg fuel path fd uok contents parent rs h
  unfold process_archive at h
  cases hc : crawlGo cfg fuel (.arch path fd uok contents parent) "" [] with
  | error e =>
    rw [hc] at h
    exact Except.noConfusion h
  | ok p =>
    obtain ⟨rs0, s0⟩ := p
    rw [hc] at h
    simp only [Except.map, Except.ok.injEq] at h
    rw [← h]
    exact (crawlGo_arch_spec cfg fuel path fd uok contents parent "" [] rs0 s0 hc).2

/-- C3, witness: a zip inside a zip; the text file of the inner archive is
tagged with the outer archive's path, not the inner archive's own unpacked
path. -/
theorem c3_archive_label_witness :
    process_archive cfgAll 10 "root/outer.zip" c3fdOuter true c3contents
      "root/outer.zip" = .ok [c3rec] ∧
    c3rec.source_archive =
      (if ("root/outer.zip" : String) = "" then "root/outer.zip" else "root/outer.zip") ∧
    c3rec.file_path ≠ c3rec.source_archive :=
  ⟨by rfl,
   c3_archive_records_carry_enclosing_label cfgAll 10 "root/outer.zip" c3fdOuter
     true c3contents "root/outer.zip" [c3rec] (by rfl) c3rec (by simp),
   by decide⟩

/-- C4 (code bug): an OSError raised by os.stat on one file is not caught, so
it aborts the entire crawl instead of skipping that file: the crawl of three
text files whose second vanishes before os.stat returns an error and loses
every record, while the same tree without the failure yields all three
records. -/
theorem c4_stat_error_aborts_whole_crawl :
    crawl_directory cfgAll 10 "root" c4tree "" = .error .osError ∧
    crawl_directory cfgAll 10 "root" c4treeOk "" = .ok c4okRecords := ⟨by rfl, by rfl⟩

/-- C5 (confirmed): INSERT OR IGNORE dedup of the metadata relation.  Loading
records whose fingerprints are all present inserts zero rows; of two records
with the same fingerprint the first-seen one wins and the later duplicate is
dropped silently; loading an identical record set twice leaves the relation
unchanged after the second load. -/
theorem c5_load_to_sqlite_dedup_idempotent :
    (∀ db rs : List Record,
        (∀ r ∈ rs, r.file_hash ∈ db.map (fun x => x.file_hash)) →
        load_to_sqlite db rs = db) ∧
    (∀ (db : List Record) (r1 r2 : Record), r1.file_hash = r2.file_hash →
        load_to_sqlite db [r1, r2] = load_to_sqlite db [r1]) ∧
    (∀ db rs : List Record,
        load_to_sqlite (load_to_sqlite db rs) rs = load_to_sqlite db rs) := by
  refine ⟨fun db rs h => load_eq_of_all_present rs db h, ?_, ?_⟩
  · intro db r1 r2 hh
    show insertOrIgnore (insertOrIgnore db r1) r2 = insertOrIgnore db r1
    exact insertOrIgnore_of_mem _ r2 (hh ▸ self_mem_insertOrIgnore db r1)
  · intro db rs
    exact load_eq_of_all_present rs _ (fun r hr => mem_hashes_load rs db r hr)

/-- C5, witness at concrete records. -/
theorem c5_load_dedup_witness :
    load_to_sqlite [r5a] [r5b] = [r5a] ∧
    load_to_sqlite [] [r5a, r5b] = load_to_sqlite [] [r5a] ∧
    load_to_sqlite (load_to_sqlite [] [r5a, r5c]) [r5a, r5c] =
      load_to_sqlite [] [r5a, r5c] :=
  ⟨c5_load_to_sqlite_dedup_idempotent.1 [r5a] [r5b] (by decide),
   c5_load_to_sqlite_dedup_idempotent.2.1 [] r5a r5b (by decide),
   c5_load_to_sqlite_dedup_idempotent.2.2 [] [r5a, r5c]⟩

/-- C6 (confirmed): parse_txt tries exactly the three encodings utf-8, cp1251,
latin-1 in this fixed order and returns the first successful decode; the
latin-1 fallback is total and byte-preserving, so the decode step itself never
fails to produce a string. -/
theorem c6_parse_txt_encoding_cascade :
    ∀ fd : FileData, fd.readErr = false →
      ENCODINGS = ["utf-8", "cp1251", "latin-1"] ∧
      (ENCODINGS.findSome? (decodeWith fd)).isSome = true ∧
      parse_txt fd = .ok (match fd.utf8Dec with
        | some s => s
        | none => match fd.cp1251Dec with
          | some s => s
          | none => latin1Decode fd.bytes) ∧
      (∀ bs : List Nat, (∀ b ∈ bs, b < 256) →
        (latin1Decode bs).data.map Char.toNat = bs) := by
  intro fd hre
  have hfs : ENCODINGS.findSome? (decodeWith fd) =
      some (match fd.utf8Dec with
        | some s => s
        | none => match fd.cp1251Dec with
          | some s => s
          | none => latin1Decode fd.bytes) := by
    cases hu : fd.utf8Dec with
    | some s => simp +decide [ENCODINGS, List.findSome?_cons, decodeWith, hu]
    | none =>
      cases hc : fd.cp1251Dec with
      | some s => simp +decide [ENCODINGS, List.findSome?_cons, decodeWith, hu, hc]
      | none => simp +decide [ENCODINGS, List.findSome?_cons, decodeWith, hu, hc]
  refine ⟨rfl, ?_, ?_, ?_⟩
  · rw [hfs]
    rfl
  · rw [parse_txt, if_neg (by rw [hre]; exact Bool.false_ne_true), hfs]
  · intro bs hb
    have hmap : ∀ b ∈ bs, Char.toNat (Char.ofNat (b % 256)) = b := by
      intro b hbb
      have h1 : b < 256 := hb b hbb
      rw [Nat.mod_eq_of_lt h1]
      exact char_toNat_ofNat_of_lt b h1
    calc (latin1Decode bs).data.map Char.toNat
        = bs.map (fun b => Char.toNat (Char.ofNat (b % 256))) := by
          simp [latin1Decode]
      _ = bs.map id := List.map_congr_left hmap
      _ = bs := List.map_id bs

/-- C6, witness: a byte sequence rejected by both recorded codecs decodes via
the latin-1 fallback. -/
theorem c6_parse_txt_cascade_witness :
    c6fd.readErr = false ∧
    parse_txt c6fd = .ok (latin1Decode c6fd.bytes) ∧
    (ENCODINGS.findSome? (decodeWith c6fd)).isSome = true :=
  ⟨rfl, (c6_parse_txt_encoding_cascade c6fd rfl).2.2.1,
   (c6_parse_txt_encoding_cascade c6fd rfl).2.1⟩

/-- C7, counterexample: a row whose single non-null cell is a lone whitespace
string is skipped by parse_xlsx, although the claim's include-iff-non-null
rule keeps it. -/
theorem c7_whitespace_row_dropped :
    parse_xlsx cfgAll fd7 = "a" ∧
    parse_xlsx_claim wb7 = "a\n " ∧
    parse_xlsx cfgAll fd7 ≠ parse_xlsx_claim wb7 := ⟨by rfl, by rfl, by decide⟩

/-- C7, amended: worksheets are visited in workbook order and non-null cell
values joined with the space-pipe-space delimiter, but a row's joined line is
included iff the joined line has a non-whitespace character; every included
row does have at least one non-null cell, while a row whose non-null cells
join to a whitespace-only string is skipped. -/
theorem c7_xlsx_rows_joined_when_nonblank :
    ∀ wb : List (List (List (Option String))),
      xlsxParts wb =
        (wb.map (fun sheet =>
          (sheet.map rowStr).filter (fun s => pyStrip s != ""))).flatten ∧
      (∀ row : List (Option String), pyStrip (rowStr row) ≠ "" →
        row.any (fun c => c.isSome) = true) ∧
      (∀ (cfg : Config) (fd : FileData), cfg.HAS_XLSX = true →
        fd.view = .sheets wb →
        parse_xlsx cfg fd = String.intercalate "\n" (xlsxParts wb)) := by
  intro wb
  refine ⟨xlsxParts_eq wb, ?_, ?_⟩
  · intro row hrow
    by_contra hany
    have hf : row.any (fun c => c.isSome) = false := by
      revert hany
      cases row.any (fun c => c.isSome) <;> simp
    have hall : ∀ c ∈ row, c = none := by
      intro c hc
      have hcc := List.any_eq_false.mp hf c hc
      cases c with
      | none => rfl
      | some v => simp at hcc
    have hfm : row.filterMap id = [] :=
      List.filterMap_eq_nil_iff.mpr (fun a ha => hall a ha)
    have hrs : rowStr row = "" := by
      unfold rowStr
      rw [hfm]
      rfl
    exact hrow (by rw [hrs]; rfl)
  · intro cfg fd hx hv
    unfold parse_xlsx
    rw [hx, hv]
    simp

/-- C7, witness for the amended theorem: an included row has a non-null cell,
and parse_xlsx agrees with the accumulated parts on the concrete workbook. -/
theorem c7_xlsx_rows_witness :
    ([some "a"] : List (Option String)).any (fun c => c.isSome) = true ∧
    parse_xlsx cfgAll fd7 = String.intercalate "\n" (xlsxParts wb7) :=
  ⟨(c7_xlsx_rows_joined_when_nonblank wb7).2.1 [some "a"] (by decide),
   (c7_xlsx_rows_joined_when_nonblank wb7).2.2 cfgAll fd7 rfl rfl⟩

/-- C8 (confirmed): .rar is classified as an archive extension, but
process_archive has no extraction path for it and returns zero records, and
the crawl orchestrator continues with the remaining entries with unchanged
dedup state. -/
theorem c8_rar_classified_archive_no_records :
    (".rar" ∈ ARCHIVE_EXTS) ∧
    (∀ (cfg : Config) (fuel : Nat) (path : String) (fd : FileData) (uok : Bool)
        (contents : FsTree) (parent : String), suffixLower fd.name = ".rar" →
        process_archive cfg (fuel + 1) path fd uok contents parent = .ok []) ∧
    (∀ (cfg : Config) (fuel : Nat) (dirpath : String) (fd : FileData) (uok : Bool)
        (contents rest : FsTree) (label : String) (seen : List String),
        suffixLower fd.name = ".rar" →
        crawlGo cfg (fuel + 2) (.files dirpath (.file fd uok contents rest)) label seen =
          crawlGo cfg (fuel + 1) (.files dirpath rest) label seen) := by
  refine ⟨by decide, ?_, ?_⟩
  · intro cfg fuel path fd uok contents parent hext
    unfold process_archive
    simp only [crawlGo]
    rw [hext, if_neg (by decide), if_neg (by decide)]
    rfl
  · intro cfg fuel dirpath fd uok contents rest label seen hext
    simp only [crawlGo]
    rw [hext, if_pos (show (".rar" : String) ∈ SUPPORTED_EXTS by decide),
      if_pos (show (".rar" : String) ∈ ARCHIVE_EXTS by decide),
      if_neg (show ¬(".rar" : String) = ".zip" by decide),
      if_neg (show ¬(".rar" : String) = ".7z" by decide)]
    cases hrest : crawlGo cfg (fuel + 1) (.files dirpath rest) label seen with
    | error e => rfl
    | ok p => simp

/-- C8, witness at a concrete .rar file. -/
theorem c8_rar_skipped_witness :
    suffixLower rarFd.name = ".rar" ∧
    process_archive cfgAll 5 "root/x.rar" rarFd true .nil "root/x.rar" = .ok [] ∧
    crawlGo cfgAll 7 (.files "root" (.file rarFd true .nil .nil)) "" [] =
      crawlGo cfgAll 6 (.files "root" .nil) "" [] :=
  ⟨by decide,
   c8_rar_classified_archive_no_records.2.1 cfgAll 4 "root/x.rar" rarFd true .nil
     "root/x.rar" (by decide),
   c8_rar_classified_archive_no_records.2.2 cfgAll 5 "root" rarFd true .nil .nil
     "" [] (by decide)⟩

/-- C9 (confirmed): a crawl producing zero records makes main exit without
writing the CSV export or the store, as a normal (non-error) outcome; an
empty root directory produces zero records. -/
theorem c9_zero_records_no_outputs :
    (∀ (cfg : Config) (fuel : Nat) (root : String) (t : FsTree) (db0 : List Record),
        crawl_directory cfg fuel root t "" = .ok [] →
        main_run cfg fuel root t db0 = .ok (none, none)) ∧
    (∀ (cfg : Config) (fuel : Nat) (root : String),
        crawl_directory cfg (fuel + 2) root .nil "" = .ok []) := by
  constructor
  · intro cfg fuel root t db0 h
    unfold main_run
    rw [h]
    rfl
  · intro cfg fuel root
    unfold crawl_directory
    simp only [crawlGo]
    rfl

/-- C9, witness: an empty root yields zero records and no outputs. -/
theorem c9_zero_records_witness :
    crawl_directory cfgAll 10 "empty" .nil "" = .ok [] ∧
    main_run cfgAll 10 "empty" .nil [] = .ok (none, none) :=
  ⟨c9_zero_records_no_outputs.2 cfgAll 8 "empty",
   c9_zero_records_no_outputs.1 cfgAll 10 "empty" .nil []
     (c9_zero_records_no_outputs.2 cfgAll 8 "empty")⟩

/-- C10 (confirmed): a supported non-archive extension is always a key of the
static parser table, so extract_text never returns the unsupported signal
(none) on that path and the skip-without-recording branch is unreachable. -/
theorem c10_extract_text_never_none_on_supported :
    ∀ (cfg : Config) (fd : FileData) (p : String),
      suffixLower p ∈ SUPPORTED_EXTS → suffixLower p ∉ ARCHIVE_EXTS →
      extract_text cfg fd p ≠ .ok none := by
  intro cfg fd p hsup harc
  unfold SUPPORTED_EXTS at hsup
  have hp := Or.resolve_right (List.mem_append.mp hsup) harc
  simp only [PARSER_KEYS, List.mem_cons, List.not_mem_nil, or_false] at hp
  rcases hp with h | h | h | h | h | h <;>
    cases hpt : parse_txt fd <;>
      simp +decide [extract_text, h, hpt, Except.map]

/-- C10, witness at a concrete .txt file. -/
theorem c10_extract_text_witness :
    suffixLower "root/a.txt" ∈ SUPPORTED_EXTS ∧
    suffixLower "root/a.txt" ∉ ARCHIVE_EXTS ∧
    extract_text cfgAll c10fd "root/a.txt" ≠ .ok none :=
  ⟨by decide, by decide,
   c10_extract_text_never_none_on_supported cfgAll c10fd "root/a.txt"
     (by decide) (by decide)⟩

end Crawler
